import Mathlib

/-!
Verification development for the Paxos library in `bpv3/paxos/paxos.go`.

The Go file implements a Multi-Paxos core: per-instance acceptor handlers
(`AcceptPrepare`, `AcceptCommit`, `AcceptDecided`), a proposer retry loop
(`Start` with `sendPrepare` / `sendCommit` / `sendDecision`), and the
watermark garbage collector (`Done` / `Min` / `Max`).

The embedding below is a shallow one:

* Application payloads (`interface{}` in Go) are modelled as `Option V` for
  an arbitrary type `V`, with Go's `nil` modelled as `none`.
* Ballot stamps (`int64`) and sequence numbers / watermarks (`int`) are
  modelled as `Int`; the values arising in this code stay far below the
  64-bit bound, so no wrap-around modelling is needed.
* Each acceptor handler touches the instance table only at the requested
  sequence number, so it is modelled as a function from the table entry at
  that key before the call (`Option (PaxosInst V)`, `none` when the key is
  absent) to the entry stored after the call plus the response.
* The proposer's fan-out/join loops are modelled as folds over the list of
  responses collected from the channel, in channel-arrival order.
-/

namespace PaxosSpec

/-- Result codes of the peer protocol, mirroring `ErrCode` in paxos.go
(`ErrOK`, `ErrNetwork`, `ErrRejected`). -/
inductive ErrCode where
  | ErrOK
  | ErrNetwork
  | ErrRejected
deriving DecidableEq

/-- Instance status, mirroring `State` in paxos.go
(`StateUndecided`, `StateDecided`). -/
inductive State where
  | StateUndecided
  | StateDecided
deriving DecidableEq

open ErrCode State

/-- Per-instance acceptor record, mirroring `PaxosInst` in paxos.go:
`status`, `value` (Go `nil` is `none`), `platest` (highest promised ballot
stamp), `alatest` (stamp at which `value` was last accepted, `0` if none). -/
structure PaxosInst (V : Type) where
  status : State
  value : Option V
  platest : Int
  alatest : Int
deriving DecidableEq

/-- A `Prepare` response, mirroring `PrepareRsp` in paxos.go:
`code`, `value`, `stamp` (the responder's accepted ballot `alatest`). -/
structure PrepareRsp (V : Type) where
  code : ErrCode
  value : Option V
  stamp : Int
deriving DecidableEq

/-- `Paxos.AcceptPrepare`, restricted to the table entry at `req.Seq`.
Input: the entry before the call (`none` when no instance exists) and the
request stamp.  Output: the entry stored after the call and the response.
Source: paxos.go lines 136-158. -/
def acceptPrepare {V : Type} (o : Option (PaxosInst V)) (stamp : Int) :
    PaxosInst V × PrepareRsp V :=
  match o with
  | none =>
      let inst : PaxosInst V := ⟨StateUndecided, none, stamp, 0⟩
      (inst, ⟨ErrOK, inst.value, inst.alatest⟩)
  | some inst =>
      if inst.platest ≤ stamp then
        ({ inst with platest := stamp }, ⟨ErrOK, inst.value, inst.alatest⟩)
      else
        (inst, ⟨ErrRejected, inst.value, inst.alatest⟩)

/-- `Paxos.AcceptCommit`, restricted to the table entry at `req.Seq`.
Input: the entry before the call, the request value and stamp.  Output: the
entry stored after the call and the response code.
Source: paxos.go lines 160-182 (note the create branch stores `alatest = 0`,
the line storing `req.Stamp` there is commented out in the source). -/
def acceptCommit {V : Type} (o : Option (PaxosInst V)) (v : Option V) (stamp : Int) :
    PaxosInst V × ErrCode :=
  match o with
  | none => (⟨StateUndecided, v, stamp, 0⟩, ErrOK)
  | some inst =>
      if inst.platest ≤ stamp then
        ({ inst with value := v, platest := stamp, alatest := stamp }, ErrOK)
      else
        (inst, ErrRejected)

/-- `Paxos.AcceptDecided`, restricted to the table entry at `req.Seq`.
Source: paxos.go lines 184-198 (instance part). -/
def acceptDecided {V : Type} (o : Option (PaxosInst V)) (v : Option V) : PaxosInst V :=
  match o with
  | none => ⟨StateDecided, v, 0, 0⟩
  | some inst => { inst with status := StateDecided, value := v }

/-- The watermark update in `Paxos.AcceptDecided`:
`px.done[req.Svrid] = req.Done`, unconditional overwrite.
Source: paxos.go line 196. -/
def decideSetDone (done : List Int) (svrid : Nat) (d : Int) : List Int :=
  done.set svrid d

/-- One step of the response-collection loop of `sendPrepare`
(paxos.go lines 227-237): the accumulator is `(agreed, highest, nv)`;
an `ErrOK` response increments `agreed` and, when its stamp strictly
exceeds `highest`, updates `(highest, nv)` to the response's stamp/value. -/
def prepareStep {V : Type} (acc : Nat × Int × Option V) (r : PrepareRsp V) :
    Nat × Int × Option V :=
  if r.code = ErrOK then
    if acc.2.1 < r.stamp then (acc.1 + 1, r.stamp, r.value)
    else (acc.1 + 1, acc.2.1, acc.2.2)
  else acc

/-- The response-collection loop of `sendPrepare`, starting from
`agreed = 0`, `highest = 0`, `nv = nil`, over the responses in channel
arrival order. -/
def prepareAgg {V : Type} (rs : List (PrepareRsp V)) : Nat × Int × Option V :=
  rs.foldl prepareStep (0, 0, none)

/-- `sendPrepare`'s boolean result: `false` iff `agreed <= len(peers)/2`
(paxos.go lines 239-242). -/
def sendPrepareOk {V : Type} (n : Nat) (rs : List (PrepareRsp V)) : Bool :=
  if (prepareAgg rs).1 ≤ n / 2 then false else true

/-- `sendPrepare`'s returned `nv`: the third component of the fold. -/
def sendPrepareNv {V : Type} (rs : List (PrepareRsp V)) : Option V :=
  (prepareAgg rs).2.2

/-- The number of `ErrOK` entries among a list of response codes, mirroring
the `accept` counter of `sendCommit` (paxos.go lines 265-271). -/
def commitCount (crs : List ErrCode) : Nat :=
  (crs.filter (fun c => decide (c = ErrOK))).length

/-- `sendCommit`'s boolean result: `false` iff `accept <= len(peers)/2`
(paxos.go lines 272-275). -/
def sendCommitOk (n : Nat) (crs : List ErrCode) : Bool :=
  if commitCount crs ≤ n / 2 then false else true

/-- The value-adoption in `Start` (paxos.go lines 321-324):
`if nv != nil { v = nv }`. -/
def adoptValue {V : Type} (nv : Option V) (v : Option V) : Option V :=
  match nv with
  | some w => some w
  | none => v

/-- The candidate value held by the proposer right after a successful
prepare round whose responses were `rs`, when the candidate before the
round was `v`. -/
def startCandidate {V : Type} (rs : List (PrepareRsp V)) (v : Option V) : Option V :=
  adoptValue (sendPrepareNv rs) v

/-- One iteration of the retry loop in `Start` (paxos.go lines 313-330),
for peer count `n`, candidate `v` at the top of the loop, prepare responses
`prs` and commit responses `crs` of this iteration.  Returns the candidate
held when the iteration ends and whether the loop exits (decision sent). -/
def startIter {V : Type} (n : Nat) (v : Option V) (prs : List (PrepareRsp V))
    (crs : List ErrCode) : Option V × Bool :=
  if sendPrepareOk n prs then
    if sendCommitOk n crs then (startCandidate prs v, true)
    else (startCandidate prs v, false)
  else (v, false)

/-- The prepare and commit responses observed by one iteration of the
retry loop in `Start`. -/
structure Round (V : Type) where
  prs : List (PrepareRsp V)
  crs : List ErrCode
deriving DecidableEq

/-- The retry loop of `Start`, run over a finite schedule of rounds.
Returns the final candidate and whether a decision was sent. -/
def startLoop {V : Type} (n : Nat) (v : Option V) : List (Round V) → Option V × Bool
  | [] => (v, false)
  | r :: rest =>
      let p := startIter n v r.prs r.crs
      if p.2 then p else startLoop n p.1 rest

/-- The stamps of the `ErrOK` responses of a prepare round, in arrival
order. -/
def okStamps {V : Type} (rs : List (PrepareRsp V)) : List Int :=
  (rs.filter (fun r => decide (r.code = ErrOK))).map (fun r => r.stamp)

/-- The number of `ErrOK` responses of a prepare round. -/
def okCount {V : Type} (rs : List (PrepareRsp V)) : Nat :=
  (rs.filter (fun r => decide (r.code = ErrOK))).length

/-- The largest accepted-ballot stamp reported by any `ErrOK` response,
floored at `0` (the initial value of `highest` in `sendPrepare`). -/
def maxOkStamp {V : Type} (rs : List (PrepareRsp V)) : Int :=
  (okStamps rs).foldl max 0

/-- One step of the minimum fold in `Min` (paxos.go lines 401-405):
`if ans > d { ans = d }`. -/
def minStep (a d : Int) : Int :=
  if a > d then d else a

/-- The minimum fold in `Min`, started at the literal `0x7fffffff`. -/
def minFold (done : List Int) : Int :=
  done.foldl minStep 2147483647

/-- The value `ans` computed by `Min` before the eviction loop:
the fold result, or `0` when the watermark array is empty
(paxos.go lines 399-408). -/
def minAns (done : List Int) : Int :=
  if done = [] then 0 else minFold done

/-- The eviction loop of `Min` (paxos.go lines 409-413): delete every
entry with `seq < ans` whose status is `StateDecided`.  The instance table
is modelled as the list of its (sequence number, instance) entries. -/
def minEvict {V : Type} (table : List (Int × PaxosInst V)) (a : Int) :
    List (Int × PaxosInst V) :=
  table.filter (fun p => !(decide (p.1 < a) && decide (p.2.status = StateDecided)))

/-- `Paxos.Min` (paxos.go lines 395-415): returns `ans + 1` and the table
left after eviction. -/
def pxMin {V : Type} (done : List Int) (table : List (Int × PaxosInst V)) :
    Int × List (Int × PaxosInst V) :=
  (minAns done + 1, minEvict table (minAns done))

/-- A single acceptor-handler invocation addressed to one instance:
the three inbound message kinds. -/
inductive POp (V : Type) where
  | prep (stamp : Int)
  | commit (v : Option V) (stamp : Int)
  | decideMsg (v : Option V)

/-- Apply one handler invocation to the table entry for an instance. -/
def applyOp {V : Type} (o : Option (PaxosInst V)) : POp V → Option (PaxosInst V)
  | POp.prep stamp => some (acceptPrepare o stamp).1
  | POp.commit v stamp => some (acceptCommit o v stamp).1
  | POp.decideMsg v => some (acceptDecided o v)

/-- Apply a sequence of handler invocations to the table entry for an
instance, in order. -/
def applyOps {V : Type} (o : Option (PaxosInst V)) (ops : List (POp V)) :
    Option (PaxosInst V) :=
  ops.foldl applyOp o

/-- Whether the table entry holds a decided instance. -/
def decidedB {V : Type} (o : Option (PaxosInst V)) : Bool :=
  match o with
  | some inst => decide (inst.status = StateDecided)
  | none => false

/-- Modelled from the spec: the value-adoption rule as worded by the spec
and claim C2 — if any `ErrOK` response carries a non-empty value, replace
the candidate with the value carried by the `ErrOK` response reporting the
highest accepted ballot; otherwise keep the candidate.  Used only to
compare against `startCandidate`, which is translated from the source. -/
def specHighestOk {V : Type} (rs : List (PrepareRsp V)) : Option (PrepareRsp V) :=
  (rs.filter (fun r => decide (r.code = ErrOK))).foldl
    (fun best r =>
      match best with
      | none => some r
      | some b => if b.stamp < r.stamp then some r else some b) none

/-- Modelled from the spec: the candidate after adoption, as worded by the
spec and claim C2 (see `specHighestOk`). -/
def specCandidate {V : Type} (rs : List (PrepareRsp V)) (v0 : Option V) : Option V :=
  if rs.any (fun r => decide (r.code = ErrOK) && r.value.isSome) then
    match specHighestOk rs with
    | some r => r.value
    | none => v0
  else v0

/-- Concrete prepare-response list: three `ErrOK` votes, one of which
reports a previously accepted value `7` at stamp `5`. -/
def prsA : List (PrepareRsp Nat) :=
  [⟨ErrOK, some 7, 5⟩, ⟨ErrOK, none, 0⟩, ⟨ErrOK, none, 0⟩]

/-- Concrete prepare-response list: three `ErrOK` votes, none reporting a
previously accepted value. -/
def prsB : List (PrepareRsp Nat) :=
  [⟨ErrOK, none, 0⟩, ⟨ErrOK, none, 0⟩, ⟨ErrOK, none, 0⟩]

/-- Concrete commit-response list with a single `ErrOK` vote out of three:
no quorum. -/
def crsFail : List ErrCode := [ErrOK, ErrRejected, ErrRejected]

/-- Concrete commit-response list with three `ErrOK` votes: quorum. -/
def crsOkAll : List ErrCode := [ErrOK, ErrOK, ErrOK]

/-- Concrete prepare-response list: a single `ErrOK` response carrying the
non-empty value `7` at accepted ballot `0`. -/
def rsC2 : List (PrepareRsp Nat) := [⟨ErrOK, some 7, 0⟩]

/-- Concrete prepare-response list: three `ErrOK` votes and one network
failure, out of four peers. -/
def prsW : List (PrepareRsp Nat) :=
  [⟨ErrOK, none, 0⟩, ⟨ErrOK, none, 0⟩, ⟨ErrOK, none, 0⟩, ⟨ErrNetwork, none, 0⟩]

/-- Concrete watermark array whose single entry exceeds `0x7fffffff`. -/
def doneBig : List Int := [2147483648]

/-- Helper: overwriting an in-range index of a list is visible at that
index. -/
theorem set_get_self :
    ∀ (l : List Int) (i : Nat) (d : Int), i < l.length → (l.set i d)[i]? = some d
  | _ :: _, 0, _, _ => by simp
  | x :: l, i + 1, d, h => by
      simpa using set_get_self l i d (by simpa using h)
  | [], i, d, h => by simp at h

/-- Claim C3: for a `Prepare` on an existing instance, the handler accepts
exactly when the request stamp is at least the promised stamp (inclusive),
on accept it raises the promised stamp to the request stamp, in both
branches the response carries the instance's current `(value, alatest)`
pair, and a stamp equal to the current promise is accepted. -/
theorem C3_acceptPrepare {V : Type} (inst : PaxosInst V) (stamp : Int) :
    ((acceptPrepare (some inst) stamp).2.code = ErrOK ↔ inst.platest ≤ stamp) ∧
    (inst.platest ≤ stamp → (acceptPrepare (some inst) stamp).1.platest = stamp) ∧
    (acceptPrepare (some inst) stamp).2.value = inst.value ∧
    (acceptPrepare (some inst) stamp).2.stamp = inst.alatest ∧
    (acceptPrepare (some inst) inst.platest).2.code = ErrOK := by
  refine ⟨?_, ?_, ?_, ?_, ?_⟩
  · by_cases h : inst.platest ≤ stamp <;> simp [acceptPrepare, h]
  · intro h; simp [acceptPrepare, h]
  · by_cases h : inst.platest ≤ stamp <;> simp [acceptPrepare, h]
  · by_cases h : inst.platest ≤ stamp <;> simp [acceptPrepare, h]
  · simp [acceptPrepare]

/-- Witness for C3 at a concrete instance and an equal-ballot request. -/
theorem C3_witness :
    (acceptPrepare (some (⟨StateUndecided, some 3, 5, 2⟩ : PaxosInst Nat)) 5).1.platest = 5 :=
  (C3_acceptPrepare (⟨StateUndecided, some 3, 5, 2⟩ : PaxosInst Nat) 5).2.1 (by decide)

/-- Counterexample to claim C4 as stated: `AcceptCommit` on a missing
instance does accept unconditionally and stores the request stamp as the
promised ballot, but it stores `0`, not the request stamp `7`, as the
accepted ballot of the new instance. -/
theorem C4_counterexample :
    (acceptCommit (none : Option (PaxosInst Nat)) (some 5) 7).2 = ErrOK ∧
    (acceptCommit (none : Option (PaxosInst Nat)) (some 5) 7).1.value = some 5 ∧
    (acceptCommit (none : Option (PaxosInst Nat)) (some 5) 7).1.platest = 7 ∧
    (acceptCommit (none : Option (PaxosInst Nat)) (some 5) 7).1.alatest = 0 ∧
    (acceptCommit (none : Option (PaxosInst Nat)) (some 5) 7).1.alatest ≠ 7 := by
  decide

/-- Claim C4 as amended: `AcceptCommit` on a missing instance creates the
instance and accepts unconditionally, storing the request's value, the
request's stamp as the promised ballot, and `0` (the unset sentinel) as
the accepted ballot. -/
theorem C4_commit_create {V : Type} (v : Option V) (stamp : Int) :
    acceptCommit (none : Option (PaxosInst V)) v stamp =
      (⟨StateUndecided, v, stamp, 0⟩, ErrOK) := rfl

/-- Claim C6: `AcceptDecided` unconditionally sets the instance (created
or existing, with any prior ballots) to `StateDecided` with the message
value, and unconditionally overwrites the sender's watermark entry, even
when that lowers it. -/
theorem C6_acceptDecided {V : Type} (o : Option (PaxosInst V)) (v : Option V)
    (done : List Int) (svrid : Nat) (d : Int) (h : svrid < done.length) :
    (acceptDecided o v).status = StateDecided ∧
    (acceptDecided o v).value = v ∧
    (decideSetDone done svrid d)[svrid]? = some d := by
  refine ⟨?_, ?_, set_get_self done svrid d h⟩
  · cases o <;> rfl
  · cases o <;> rfl

/-- Witness for C6: the watermark entry `5` is overwritten with the lower
value `3`. -/
theorem C6_witness : (decideSetDone [5] 0 3)[0]? = some 3 :=
  (C6_acceptDecided (none : Option (PaxosInst Nat)) none [5] 0 3 (by decide)).2.2

/-- Claim C9: whenever `AcceptPrepare` or `AcceptCommit` answers
`ErrRejected`, an instance already existed for the sequence number and the
table entry after the call is exactly the entry before it — the reject
branch creates nothing and mutates nothing. -/
theorem C9_reject_no_mutation {V : Type} (o : Option (PaxosInst V)) (v : Option V)
    (stamp : Int) :
    ((acceptPrepare o stamp).2.code = ErrRejected →
      some (acceptPrepare o stamp).1 = o) ∧
    ((acceptCommit o v stamp).2 = ErrRejected →
      some (acceptCommit o v stamp).1 = o) := by
  constructor
  · intro h
    match o with
    | none => simp [acceptPrepare] at h
    | some inst =>
        by_cases hle : inst.platest ≤ stamp
        · simp [acceptPrepare, hle] at h
        · simp [acceptPrepare, hle]
  · intro h
    match o with
    | none => simp [acceptCommit] at h
    | some inst =>
        by_cases hle : inst.platest ≤ stamp
        · simp [acceptCommit, hle] at h
        · simp [acceptCommit, hle]

/-- Witness for C9 at a concrete rejected `Prepare`. -/
theorem C9_witness :
    some (acceptPrepare (some (⟨StateUndecided, none, 10, 0⟩ : PaxosInst Nat)) 3).1 =
      some (⟨StateUndecided, none, 10, 0⟩ : PaxosInst Nat) :=
  (C9_reject_no_mutation (some (⟨StateUndecided, none, 10, 0⟩ : PaxosInst Nat))
    none 3).1 (by decide)

/-- Claim C10: an `Accept` with a stamp at least the promised ballot, on an
instance that is already decided, succeeds and overwrites the stored value
and both ballots with the request's, while the status stays decided. -/
theorem C10_commit_on_decided {V : Type} (inst : PaxosInst V) (v : Option V)
    (stamp : Int) (hdec : inst.status = StateDecided) (hle : inst.platest ≤ stamp) :
    acceptCommit (some inst) v stamp = (⟨StateDecided, v, stamp, stamp⟩, ErrOK) := by
  cases inst
  simp_all [acceptCommit]

/-- Witness for C10: a decided instance holding `1` has its value
overwritten with `2` by a later `Accept`. -/
theorem C10_witness :
    acceptCommit (some (⟨StateDecided, some 1, 3, 3⟩ : PaxosInst Nat)) (some 2) 4 =
      (⟨StateDecided, some 2, 4, 4⟩, ErrOK) :=
  C10_commit_on_decided (⟨StateDecided, some 1, 3, 3⟩ : PaxosInst Nat) (some 2) 4
    rfl (by decide)

/-- Counterexample to claim C1 as stated: with three peers and original
input `1`, a first round reaches prepare quorum and adopts the value `7`
(reported at stamp `5`), then fails the commit quorum.  The candidate
carried into the retry is the adopted `7`, not the original `1`; a second
round that adopts nothing then decides `7`.  Under the claim the retry
would have restarted from `1` and decided `1`. -/
theorem C1_counterexample :
    sendPrepareOk 3 prsA = true ∧
    startCandidate prsA (some 1) = some 7 ∧
    sendCommitOk 3 crsFail = false ∧
    startIter 3 (some 1) prsA crsFail = (some 7, false) ∧
    sendPrepareNv prsB = none ∧
    startLoop 3 (some 1) [⟨prsA, crsFail⟩, ⟨prsB, crsOkAll⟩] = (some 7, true) ∧
    (some 7 : Option Nat) ≠ some 1 := by
  decide

/-- Claim C1 as amended: when the prepare round succeeds and the commit
round fails to reach quorum, the retry loop continues with the candidate
it adopted for the failed commit (`startCandidate prs v`), not with a
candidate reset to the proposer's original input. -/
theorem C1_retry_keeps_adopted {V : Type} (n : Nat) (v : Option V)
    (prs : List (PrepareRsp V)) (crs : List ErrCode)
    (h1 : sendPrepareOk n prs = true) (h2 : sendCommitOk n crs = false) :
    startIter n v prs crs = (startCandidate prs v, false) := by
  simp [startIter, h1, h2]

/-- Witness for C1 at the concrete failed round. -/
theorem C1_witness :
    startIter 3 (some 1) prsA crsFail = (startCandidate prsA (some 1), false) :=
  C1_retry_keeps_adopted 3 (some 1) prsA crsFail (by decide) (by decide)

/-- Helper: a single handler invocation never moves an existing decided
instance back to undecided. -/
theorem applyOp_decided {V : Type} (o : Option (PaxosInst V)) (op : POp V)
    (h : decidedB o = true) : decidedB (applyOp o op) = true := by
  match o with
  | none => simp [decidedB] at h
  | some inst =>
      have hst : inst.status = StateDecided := by
        simpa [decidedB] using h
      match op with
      | POp.prep stamp =>
          by_cases hle : inst.platest ≤ stamp <;>
            simp [applyOp, acceptPrepare, decidedB, hle, hst]
      | POp.commit v stamp =>
          by_cases hle : inst.platest ≤ stamp <;>
            simp [applyOp, acceptCommit, decidedB, hle, hst]
      | POp.decideMsg v =>
          simp [applyOp, acceptDecided, decidedB]

/-- Claim C8: across any sequence of `Prepare`/`Accept`/`Decide` handler
invocations on an instance, once the instance is decided it stays decided.
-/
theorem C8_decided_monotonic {V : Type} (ops : List (POp V))
    (o : Option (PaxosInst V)) (h : decidedB o = true) :
    decidedB (applyOps o ops) = true := by
  induction ops generalizing o with
  | nil => simpa [applyOps] using h
  | cons op rest ih =>
      have hstep := applyOp_decided o op h
      simpa [applyOps] using ih (applyOp o op) hstep

/-- Witness for C8 at a concrete decided instance and a concrete schedule
of all three handler kinds. -/
theorem C8_witness :
    decidedB (applyOps (some (⟨StateDecided, some 2, 1, 1⟩ : PaxosInst Nat))
      [POp.prep 5, POp.commit (some 3) 7, POp.decideMsg (some 4)]) = true :=
  C8_decided_monotonic [POp.prep 5, POp.commit (some 3) 7, POp.decideMsg (some 4)]
    (some (⟨StateDecided, some 2, 1, 1⟩ : PaxosInst Nat)) (by decide)

/-- Helper: the initial value bounds a `max`-fold from below. -/
theorem le_foldl_max : ∀ (l : List Int) (a : Int), a ≤ l.foldl max a
  | [], a => le_refl a
  | b :: l, a => le_trans (le_max_left a b) (le_foldl_max l (max a b))

/-- Helper: a `max`-fold bounds every list member from above. -/
theorem foldl_max_le_mem : ∀ (l : List Int) (a x : Int), x ∈ l → x ≤ l.foldl max a
  | [], _, x, hx => by simp at hx
  | b :: l, a, x, hx => by
      rcases List.mem_cons.mp hx with h1 | h1
      · subst h1
        exact le_trans (le_max_right a x) (le_foldl_max l (max a x))
      · exact foldl_max_le_mem l (max a b) x h1

/-- Helper: full characterisation of the `sendPrepare` response fold from
any accumulator `(k, h, w)`: the counter counts `ErrOK` responses, the
`highest` component is the `max`-fold of the `ErrOK` stamps over `h`, and
`nv` is unchanged when no stamp exceeds `h`, else it is the value of an
`ErrOK` response whose stamp attains the final maximum. -/
theorem prepareAgg_spec {V : Type} (rs : List (PrepareRsp V)) :
    ∀ (k : Nat) (h : Int) (w : Option V),
      (List.foldl prepareStep (k, h, w) rs).1 = k + okCount rs ∧
      (List.foldl prepareStep (k, h, w) rs).2.1 = (okStamps rs).foldl max h ∧
      ((okStamps rs).foldl max h ≤ h → (List.foldl prepareStep (k, h, w) rs).2.2 = w) ∧
      (h < (okStamps rs).foldl max h →
        ∃ r, r ∈ rs ∧ r.code = ErrOK ∧ r.stamp = (okStamps rs).foldl max h ∧
          (List.foldl prepareStep (k, h, w) rs).2.2 = r.value) := by
  induction rs with
  | nil =>
      intro k h w
      refine ⟨by simp [okCount], by simp [okStamps], fun _ => rfl, fun hlt => ?_⟩
      simp [okStamps] at hlt
  | cons r rest ih =>
      intro k h w
      by_cases hc : r.code = ErrOK
      · have hok : okStamps (r :: rest) = r.stamp :: okStamps rest := by
          simp [okStamps, hc]
        have hcnt : okCount (r :: rest) = okCount rest + 1 := by
          simp [okCount, hc]
        by_cases hs : h < r.stamp
        · have hstep : prepareStep (k, h, w) r = (k + 1, r.stamp, r.value) := by
            simp [prepareStep, hc, hs]
          have hH : (okStamps (r :: rest)).foldl max h = (okStamps rest).foldl max r.stamp := by
            rw [hok, List.foldl_cons, max_eq_right (le_of_lt hs)]
          obtain ⟨ih1, ih2, ih3, ih4⟩ := ih (k + 1) r.stamp r.value
          rw [List.foldl_cons, hstep, hcnt, hH]
          have hrle : r.stamp ≤ (okStamps rest).foldl max r.stamp :=
            le_foldl_max (okStamps rest) r.stamp
          refine ⟨by omega, ih2, fun hle => absurd (le_trans hrle hle) (not_le.mpr hs), ?_⟩
          intro _
          by_cases h2 : r.stamp < (okStamps rest).foldl max r.stamp
          · obtain ⟨q, hqmem, hqcode, hqst, hqval⟩ := ih4 h2
            exact ⟨q, List.mem_cons_of_mem r hqmem, hqcode, hqst, hqval⟩
          · have heq : (okStamps rest).foldl max r.stamp = r.stamp :=
              le_antisymm (not_lt.mp h2) hrle
            exact ⟨r, List.mem_cons_self r rest, hc, heq.symm, ih3 (le_of_eq heq)⟩
        · have hstep : prepareStep (k, h, w) r = (k + 1, h, w) := by
            simp [prepareStep, hc, hs]
          have hH : (okStamps (r :: rest)).foldl max h = (okStamps rest).foldl max h := by
            rw [hok, List.foldl_cons, max_eq_left (not_lt.mp hs)]
          obtain ⟨ih1, ih2, ih3, ih4⟩ := ih (k + 1) h w
          rw [List.foldl_cons, hstep, hcnt, hH]
          refine ⟨by omega, ih2, ih3, ?_⟩
          intro hlt
          obtain ⟨q, hqmem, hqcode, hqst, hqval⟩ := ih4 hlt
          exact ⟨q, List.mem_cons_of_mem r hqmem, hqcode, hqst, hqval⟩
      · have hok : okStamps (r :: rest) = okStamps rest := by
          simp [okStamps, hc]
        have hcnt : okCount (r :: rest) = okCount rest := by
          simp [okCount, hc]
        have hstep : prepareStep (k, h, w) r = (k, h, w) := by
          simp [prepareStep, hc]
        obtain ⟨ih1, ih2, ih3, ih4⟩ := ih k h w
        rw [List.foldl_cons, hstep, hcnt, hok]
        refine ⟨ih1, ih2, ih3, ?_⟩
        intro hlt
        obtain ⟨q, hqmem, hqcode, hqst, hqval⟩ := ih4 hlt
        exact ⟨q, List.mem_cons_of_mem r hqmem, hqcode, hqst, hqval⟩

/-- Counterexample to claim C2 as stated: a single `ErrOK` response carries
the non-empty previously-accepted value `7` (at accepted ballot `0`), so
under the claim the proposer must replace its candidate `1` with `7`
(`specCandidate` renders the claim's wording); the code keeps `1`. -/
theorem C2_counterexample :
    specCandidate rsC2 (some 1) = some 7 ∧
    startCandidate rsC2 (some 1) = some 1 ∧
    specCandidate rsC2 (some 1) ≠ startCandidate rsC2 (some 1) := by
  decide

/-- Claim C2 as amended: the adoption is gated on a strictly positive
reported accepted ballot.  If no `ErrOK` response reports a stamp above
the initial `0`, the candidate is kept — even when some `ErrOK` response
carries a non-empty value at stamp `0`.  Otherwise the proposer takes an
`ErrOK` response whose stamp attains the highest reported accepted ballot
and replaces its candidate with that response's value when it is non-empty
(`adoptValue` keeps the candidate when it is empty). -/
theorem C2_adoption {V : Type} (rs : List (PrepareRsp V)) (v0 : Option V) :
    (maxOkStamp rs = 0 → startCandidate rs v0 = v0) ∧
    (∀ r, r ∈ rs → r.code = ErrOK → r.stamp ≤ maxOkStamp rs) ∧
    (0 < maxOkStamp rs →
      ∃ r, r ∈ rs ∧ r.code = ErrOK ∧ r.stamp = maxOkStamp rs ∧
        startCandidate rs v0 = adoptValue r.value v0) := by
  obtain ⟨_, _, h3, h4⟩ := prepareAgg_spec rs 0 0 none
  refine ⟨?_, ?_, ?_⟩
  · intro hm
    have hnv : sendPrepareNv rs = none := by
      apply h3
      show maxOkStamp rs ≤ 0
      omega
    simp [startCandidate, hnv, adoptValue]
  · intro r hmem hcode
    have hstamp : r.stamp ∈ okStamps rs :=
      List.mem_map.mpr ⟨r, List.mem_filter.mpr ⟨hmem, by simp [hcode]⟩, rfl⟩
    exact foldl_max_le_mem (okStamps rs) 0 r.stamp hstamp
  · intro hpos
    obtain ⟨r, hmem, hcode, hstamp, hval⟩ := h4 hpos
    refine ⟨r, hmem, hcode, hstamp, ?_⟩
    show adoptValue (sendPrepareNv rs) v0 = adoptValue r.value v0
    rw [show sendPrepareNv rs = r.value from hval]

/-- Witness for C2 at the concrete all-stamps-zero round. -/
theorem C2_witness : startCandidate rsC2 (some 1) = some 1 :=
  (C2_adoption rsC2 (some 1)).1 (by decide)

/-- Claim C5: with peer count `n ≥ 1`, a prepare or commit round succeeds
exactly when the number of `ErrOK` responses is strictly greater than
`n / 2` (integer division), i.e. at least `n / 2 + 1`; with at most
`n / 2` affirmative votes the round reports failure and the retry loop of
`Start` continues instead of deciding. -/
theorem C5_quorum {V : Type} (n : Nat) (prs : List (PrepareRsp V))
    (crs : List ErrCode) (v : Option V) (hn : 1 ≤ n) :
    (prepareAgg prs).1 = okCount prs ∧
    (sendPrepareOk n prs = true ↔ n / 2 + 1 ≤ okCount prs) ∧
    (sendPrepareOk n prs = false ↔ okCount prs ≤ n / 2) ∧
    (sendCommitOk n crs = true ↔ n / 2 + 1 ≤ commitCount crs) ∧
    (sendCommitOk n crs = false ↔ commitCount crs ≤ n / 2) ∧
    (sendPrepareOk n prs = false → startIter n v prs crs = (v, false)) ∧
    (sendCommitOk n crs = false → (startIter n v prs crs).2 = false) := by
  have hA : (prepareAgg prs).1 = okCount prs := by
    simpa [prepareAgg] using (prepareAgg_spec prs 0 0 none).1
  refine ⟨hA, ?_, ?_, ?_, ?_, ?_, ?_⟩
  · unfold sendPrepareOk
    rw [hA]
    by_cases hle : okCount prs ≤ n / 2 <;> simp [hle] <;> omega
  · unfold sendPrepareOk
    rw [hA]
    by_cases hle : okCount prs ≤ n / 2 <;> simp [hle] <;> omega
  · unfold sendCommitOk
    by_cases hle : commitCount crs ≤ n / 2 <;> simp [hle] <;> omega
  · unfold sendCommitOk
    by_cases hle : commitCount crs ≤ n / 2 <;> simp [hle]
  · intro hfail
    simp [startIter, hfail]
  · intro hfail
    by_cases hp : sendPrepareOk n prs = true <;> simp [startIter, hp, hfail]

/-- Witness for C5 at four peers with three affirmative votes. -/
theorem C5_witness : sendPrepareOk 4 prsW = true :=
  (C5_quorum 4 prsW [] (some 0) (by decide)).2.1.mpr (by decide)

/-- Helper: one step of the `Min` fold is below its left argument. -/
theorem minStep_le_left (a d : Int) : minStep a d ≤ a := by
  unfold minStep; split <;> omega

/-- Helper: one step of the `Min` fold is below its right argument. -/
theorem minStep_le_right (a d : Int) : minStep a d ≤ d := by
  unfold minStep; split <;> omega

/-- Helper: one step of the `Min` fold returns one of its arguments. -/
theorem minStep_eq_or (a d : Int) : minStep a d = a ∨ minStep a d = d := by
  unfold minStep; split
  · right; rfl
  · left; rfl

/-- Helper: the `Min` fold lands on its initial value or a list member. -/
theorem foldl_minStep_mem : ∀ (l : List Int) (a : Int), l.foldl minStep a ∈ a :: l
  | [], a => by simp
  | d :: l, a => by
      have ih := foldl_minStep_mem l (minStep a d)
      rw [List.foldl_cons]
      rcases List.mem_cons.mp ih with h | h
      · rcases minStep_eq_or a d with h2 | h2
        · rw [h, h2]; exact List.mem_cons_self _ _
        · rw [h, h2]; exact List.mem_cons_of_mem _ (List.mem_cons_self _ _)
      · exact List.mem_cons_of_mem _ (List.mem_cons_of_mem _ h)

/-- Helper: the `Min` fold is below its initial value and every member. -/
theorem foldl_minStep_le : ∀ (l : List Int) (a x : Int), x ∈ a :: l → l.foldl minStep a ≤ x
  | [], a, x, hx => by
      have hxa : x = a := by simpa using hx
      simp [hxa]
  | d :: l, a, x, hx => by
      rw [List.foldl_cons]
      have hle : l.foldl minStep (minStep a d) ≤ minStep a d :=
        foldl_minStep_le l (minStep a d) (minStep a d) (List.mem_cons_self _ _)
      rcases List.mem_cons.mp hx with h1 | h1
      · rw [h1]
        exact le_trans hle (minStep_le_left a d)
      · rcases List.mem_cons.mp h1 with h2 | h2
        · rw [h2]
          exact le_trans hle (minStep_le_right a d)
        · exact foldl_minStep_le l (minStep a d) x (List.mem_cons_of_mem _ h2)

/-- Counterexample to claim C7 as stated: with the single watermark entry
`2147483648` (one peer, entry above `0x7fffffff`), `Min` returns
`2147483648`, not `1` plus the minimum over all entries (`2147483649`),
because the fold starts at the literal `0x7fffffff`. -/
theorem C7_counterexample :
    doneBig = [(2147483648 : Int)] ∧
    (pxMin doneBig ([] : List (Int × PaxosInst Nat))).1 = 2147483648 ∧
    ((2147483648 : Int) + 1) ≠ (pxMin doneBig ([] : List (Int × PaxosInst Nat))).1 := by
  decide

/-- Claim C7 as amended: for a non-empty watermark array, `Min` returns
`1` plus the minimum of the entries together with the constant
`2147483647` (so for entries not exceeding `0x7fffffff`, including the
`-1` sentinel, this is `1` plus the minimum over all entries), and its
eviction keeps exactly the entries that are not both below that minimum
and decided; an undecided instance is never evicted. -/
theorem C7_min {V : Type} (done : List Int) (table : List (Int × PaxosInst V))
    (h : done ≠ []) :
    (pxMin done table).1 = minAns done + 1 ∧
    minAns done ∈ (2147483647 : Int) :: done ∧
    (∀ d, d ∈ done → minAns done ≤ d) ∧
    minAns done ≤ 2147483647 ∧
    (∀ p : Int × PaxosInst V,
      p ∈ (pxMin done table).2 ↔
        p ∈ table ∧ ¬(p.1 < minAns done ∧ p.2.status = StateDecided)) ∧
    (∀ p : Int × PaxosInst V, p ∈ table → p.2.status = StateUndecided →
      p ∈ (pxMin done table).2) := by
  have hm : minAns done = minFold done := by simp [minAns, h]
  refine ⟨rfl, ?_, ?_, ?_, ?_, ?_⟩
  · rw [hm]
    exact foldl_minStep_mem done 2147483647
  · intro d hd
    rw [hm]
    exact foldl_minStep_le done 2147483647 d (List.mem_cons_of_mem _ hd)
  · rw [hm]
    exact foldl_minStep_le done 2147483647 _ (List.mem_cons_self _ _)
  · intro p
    show p ∈ minEvict table (minAns done) ↔ _
    unfold minEvict
    constructor
    · intro hp
      obtain ⟨hmem, hpred⟩ := List.mem_filter.mp hp
      refine ⟨hmem, ?_⟩
      rintro ⟨hlt, hst⟩
      simp [hlt, hst] at hpred
    · rintro ⟨hmem, hnot⟩
      apply List.mem_filter.mpr
      refine ⟨hmem, ?_⟩
      by_cases hlt : p.1 < minAns done
      · by_cases hst : p.2.status = StateDecided
        · exact absurd ⟨hlt, hst⟩ hnot
        · simp [hlt, hst]
      · simp [hlt]
  · intro p hmem hund
    show p ∈ minEvict table (minAns done)
    unfold minEvict
    apply List.mem_filter.mpr
    refine ⟨hmem, ?_⟩
    simp [hund]

/-- Witness for C7 at a concrete watermark array containing the sentinel. -/
theorem C7_witness : minAns [-1, 4] ∈ (2147483647 : Int) :: [-1, 4] :=
  (C7_min [-1, 4] ([] : List (Int × PaxosInst Nat)) (by decide)).2.1

end PaxosSpec
